import Mathlib

/-!
Shallow embedding of the `clif` tool (`src/main.rs`): a UF2-style block
encoder (`generate`) and a raw chunk combiner (`combine`), together with
theorems about the frame layout, the encoding loop and the error paths.

Machine integers (`u32`) are modelled as `Nat`.  Wherever a `u32`
operation can overflow on a reachable state we take the remainder by
`2^32` explicitly; operations that cannot overflow on the states reached
by `generate` (the file length fits in a `u32`, so `target_addr` and
`block_no` stay below `2^32`) are modelled by plain `Nat` arithmetic.
Byte buffers are `List Nat`.
-/

/-- `const CHUNK_SIZE: usize = 512;` -/
def CHUNK_SIZE : Nat := 512

/-- `const MAX_PAYLOAD_SIZE: usize = 476;` -/
def MAX_PAYLOAD_SIZE : Nat := 476

/-- `u32::to_le_bytes`: the four little-endian bytes of a 32-bit word. -/
def u32le (n : Nat) : List Nat :=
  [n % 256, n / 256 % 256, n / 65536 % 256, n / 16777216 % 256]

/-- `struct UF2Block` (src/main.rs:34-42).  In Rust `data : [u8; 476]`;
here `data : List Nat` and the fixed length 476 is carried as a
hypothesis where it matters. -/
structure UF2Block where
  flags : Nat
  target_addr : Nat
  payload_size : Nat
  block_no : Nat
  num_blocks : Nat
  file_size : Nat
  data : List Nat
deriving DecidableEq, Repr

/-- `UF2Block::FAMILY_FLAG` (src/main.rs:45). -/
def FAMILY_FLAG : Nat := 0x2000

/-- `UF2Block::new` (src/main.rs:47-57).  `(len + 1) / payload_size` is
`u32` arithmetic in the source, so the sum is reduced mod `2^32`. -/
def UF2Block.new (payload_size len : Nat) : UF2Block where
  flags := 0
  target_addr := 0
  payload_size := payload_size
  block_no := 0
  num_blocks := (len + 1) % 2 ^ 32 / payload_size
  file_size := len
  data := List.replicate MAX_PAYLOAD_SIZE 0

/-- `UF2Block::set_family` (src/main.rs:59-62). -/
def UF2Block.set_family (b : UF2Block) (family : Nat) : UF2Block :=
  { b with flags := b.flags ||| FAMILY_FLAG, file_size := family }

/-- `MAGIC_START_0` (src/main.rs:65). -/
def MAGIC_START_0 : Nat := 0x0A324655

/-- `MAGIC_START_1` (src/main.rs:66). -/
def MAGIC_START_1 : Nat := 0x9E5D5157

/-- `MAGIC_END` (src/main.rs:67). -/
def MAGIC_END : Nat := 0x0AB16F30

/-- `UF2Block::as_chunk` (src/main.rs:64-81): the `ArrayVec` is filled by
the ten `extend` calls in order, which is exactly this concatenation;
`into_inner().unwrap()` requires the total length to be 512, which holds
exactly when `data` has its `[u8; 476]` length. -/
def UF2Block.as_chunk (b : UF2Block) : List Nat :=
  u32le MAGIC_START_0 ++ u32le MAGIC_START_1 ++ u32le b.flags ++ u32le b.target_addr ++
    u32le b.payload_size ++ u32le b.block_no ++ u32le b.num_blocks ++ u32le b.file_size ++
    b.data ++ u32le MAGIC_END

/-- The error of `combine`: `read_exact` returning `UnexpectedEof` when an
input holds fewer than `CHUNK_SIZE` bytes. -/
inductive CombineError where
  | shortRead
deriving DecidableEq

/-- `combine` (src/main.rs:84-93), with each input file abstracted to the
byte list it provides and the output file to the returned byte list:
for each input in order, read its first 512 bytes (`read_exact` into
`buf`, failing if fewer are available) and append them to the output. -/
def combine : List (List Nat) → Except CombineError (List Nat)
  | [] => Except.ok []
  | f :: rest =>
    if f.length < CHUNK_SIZE then Except.error CombineError.shortRead
    else (combine rest).map (fun out => f.take CHUNK_SIZE ++ out)

/-- Outcome of `generate` (src/main.rs:95-124).
`lenError`: the `u64 → u32` `try_into` on the file length failed;
`divPanic`: the Rust `%` at line 101 with `page_size = 0` aborts with a
division-by-zero panic; `incompatibleLength`: the error built at lines
102-105; `ioError`: a failing `read_exact` inside the loop (unreachable
when the source provides `len` bytes); `ok`: the emitted blocks, in
emission order (each was written as `block.as_chunk()`). -/
inductive GenResult where
  | lenError
  | divPanic
  | incompatibleLength
  | ioError
  | ok (frames : List UF2Block)
deriving DecidableEq

/-- The page size after the fallback at src/main.rs:98-100: values above
`MAX_PAYLOAD_SIZE` are replaced by 1. -/
def acceptedPage (page_size : Nat) : Nat :=
  if page_size > MAX_PAYLOAD_SIZE then 1 else page_size

/-- `let payload_size = args.page_size * (MAX_PAYLOAD_SIZE as u32 / args.page_size);`
(src/main.rs:107), applied to the post-fallback page size. -/
def nominalPayload (page : Nat) : Nat := page * (MAX_PAYLOAD_SIZE / page)

/-- The block entering the loop: `UF2Block::new` then `set_family` when a
family id was supplied (src/main.rs:108-111). -/
def initialBlock (payload_size len : Nat) (family : Option Nat) : UF2Block :=
  match family with
  | some f => (UF2Block.new payload_size len).set_family f
  | none => UF2Block.new payload_size len

/-- The `while len > 0` loop of `generate` (src/main.rs:113-122).  `P` is
the loop-invariant local `payload_size`; the state is the remaining
source bytes, the remaining `len` and the reused `block`.  One iteration:
shrink `block.payload_size` to `len` when `len < P`; decrement `len`;
`read_exact` the next `block.payload_size` source bytes into the front of
`block.data` (failing — `none` — if the source is exhausted); emit the
block (the source writes `block.as_chunk()`); then increment `block_no`
and advance `target_addr`.  The extra fuel argument only bounds the
iteration count: each iteration consumes at least one unit of `len`
whenever `P ≥ 1`, so `generate` passes `len` as fuel. -/
def generateLoop (P : Nat) : Nat → List Nat → Nat → UF2Block → Option (List UF2Block)
  | 0, _, len, _ => if len = 0 then some [] else none
  | fuel + 1, source, len, block =>
    if len = 0 then some []
    else
      let b1 := if len < P then { block with payload_size := len } else block
      if source.length < b1.payload_size then none
      else
        let b2 := { b1 with
          data := source.take b1.payload_size ++ b1.data.drop b1.payload_size }
        let b3 := { b2 with
          block_no := b2.block_no + 1,
          target_addr := b2.target_addr + b2.payload_size }
        (generateLoop P fuel (source.drop b1.payload_size) (len - b1.payload_size) b3).map
          (fun rest => b2 :: rest)

/-- `generate` (src/main.rs:95-124) with the input file abstracted to the
byte list `source` (so `len`, read from the file metadata, is
`source.length`) and the output file to the emitted block sequence.
The branches appear in source order: the `try_into` at line 97, the
fallback at 98-100, the divisibility check at 101 (a division-by-zero
panic when the accepted page size is 0), then the loop. -/
def generate (source : List Nat) (page_size : Nat) (family : Option Nat) : GenResult :=
  if 2 ^ 32 ≤ source.length then GenResult.lenError
  else if acceptedPage page_size = 0 then GenResult.divPanic
  else if source.length % acceptedPage page_size ≠ 0 then GenResult.incompatibleLength
  else
    match generateLoop (nominalPayload (acceptedPage page_size)) source.length source
      source.length (initialBlock (nominalPayload (acceptedPage page_size)) source.length family) with
    | some frames => GenResult.ok frames
    | none => GenResult.ioError

/-- Sum of the `payload_size` fields of a list of blocks. -/
def sumPayloads (l : List UF2Block) : Nat := (l.map UF2Block.payload_size).sum

/-! ### List and arithmetic helpers -/

theorem getD_append_drop (l₁ l₂ : List Nat) (q j : Nat) (hq : l₁.length = q) (hj : q ≤ j) :
    (l₁ ++ l₂.drop q).getD j 0 = l₂.getD j 0 := by
  rw [List.getD_append_right _ _ _ _ (by omega), List.getD_eq_getElem?_getD,
    List.getD_eq_getElem?_getD, hq, List.getElem?_drop]
  congr 2
  omega

theorem div_ceil_eq (len P : Nat) (hP : 1 ≤ P) :
    (len + P - 1) / P = len / P + (if len % P = 0 then 0 else 1) := by
  obtain ⟨q, r, hr, rfl⟩ : ∃ q r, r < P ∧ len = r + q * P :=
    ⟨len / P, len % P, Nat.mod_lt _ hP, (Nat.mod_add_div' len P).symm⟩
  have h1 : r + q * P + P - 1 = (r + P - 1) + q * P := by omega
  rw [h1, Nat.add_mul_div_right _ _ hP, Nat.add_mul_mod_self_right,
    Nat.add_mul_div_right _ _ hP, Nat.div_eq_of_lt hr, Nat.mod_eq_of_lt hr]
  rcases Nat.eq_zero_or_pos r with h0 | hpos
  · subst h0
    simp [Nat.div_eq_of_lt (show P - 1 < P by omega)]
  · have h3 : r + P - 1 = (r - 1) + P := by omega
    rw [h3, Nat.add_div_right _ hP, Nat.div_eq_of_lt (by omega : r - 1 < P)]
    simp only [if_neg hpos.ne']
    omega

/-! ### Basic facts about the loop -/

theorem generateLoop_len_zero (P fuel : Nat) (src : List Nat) (b : UF2Block) :
    generateLoop P fuel src 0 b = some [] := by
  cases fuel <;> simp [generateLoop]

/-- One unfolding of the loop in the `len < P` (final short block) case. -/
theorem generateLoop_step_lt (P fuel : Nat) (src : List Nat) (len : Nat) (b : UF2Block)
    (hlen : len ≠ 0) (hlt : len < P) :
    generateLoop P (fuel + 1) src len b =
      if src.length < len then none
      else
        (generateLoop P fuel (src.drop len) 0
          { b with payload_size := len, data := src.take len ++ b.data.drop len,
                   block_no := b.block_no + 1, target_addr := b.target_addr + len }).map
          (fun rest =>
            { b with payload_size := len, data := src.take len ++ b.data.drop len } :: rest) := by
  simp only [generateLoop, if_neg hlen, if_pos hlt, Nat.sub_self]

/-- One unfolding of the loop in the `¬ len < P` (full block) case. -/
theorem generateLoop_step_ge (P fuel : Nat) (src : List Nat) (len : Nat) (b : UF2Block)
    (hlen : len ≠ 0) (hge : ¬ len < P) :
    generateLoop P (fuel + 1) src len b =
      if src.length < b.payload_size then none
      else
        (generateLoop P fuel (src.drop b.payload_size) (len - b.payload_size)
          { b with data := src.take b.payload_size ++ b.data.drop b.payload_size,
                   block_no := b.block_no + 1,
                   target_addr := b.target_addr + b.payload_size }).map
          (fun rest =>
            { b with
              data := src.take b.payload_size ++ b.data.drop b.payload_size } :: rest) := by
  simp only [generateLoop, if_neg hlen, if_neg hge]

theorem generateLoop_ne_nil (P fuel : Nat) (src : List Nat) (len : Nat) (b : UF2Block)
    (frames : List UF2Block) (h : generateLoop P fuel src len b = some frames)
    (hlen : len ≠ 0) : frames ≠ [] := by
  cases fuel with
  | zero => simp [generateLoop, hlen] at h
  | succ fuel =>
    by_cases hlt : len < P
    · rw [generateLoop_step_lt P fuel src len b hlen hlt] at h
      split at h
      · exact absurd h (by simp)
      · rw [Option.map_eq_some'] at h
        obtain ⟨rest, -, hcons⟩ := h
        simp [← hcons]
    · rw [generateLoop_step_ge P fuel src len b hlen hlt] at h
      split at h
      · exact absurd h (by simp)
      · rw [Option.map_eq_some'] at h
        obtain ⟨rest, -, hcons⟩ := h
        simp [← hcons]

theorem generateLoop_sum (P : Nat) : ∀ (fuel : Nat) (src : List Nat) (len : Nat)
    (b : UF2Block) (frames : List UF2Block), b.payload_size = P →
    generateLoop P fuel src len b = some frames → sumPayloads frames = len := by
  intro fuel
  induction fuel with
  | zero =>
    intro src len b frames _ h
    unfold generateLoop at h
    split at h
    · cases h; simp_all [sumPayloads]
    · exact absurd h (by simp)
  | succ fuel ih =>
    intro src len b frames hp h
    by_cases hlen : len = 0
    · subst hlen
      rw [generateLoop_len_zero] at h
      cases h; simp [sumPayloads]
    by_cases hlt : len < P
    · rw [generateLoop_step_lt P fuel src len b hlen hlt] at h
      split at h
      · exact absurd h (by simp)
      · rw [generateLoop_len_zero, Option.map_some'] at h
        cases h
        simp [sumPayloads]
    · rw [generateLoop_step_ge P fuel src len b hlen hlt] at h
      split at h
      · exact absurd h (by simp)
      · rw [Option.map_eq_some'] at h
        obtain ⟨rest, hrec, hcons⟩ := h
        have hsum := ih _ _ _ _ (by simpa using hp) hrec
        subst hcons
        simp only [sumPayloads, List.map_cons, List.sum_cons]
        simp only [sumPayloads] at hsum
        rw [hsum, hp]
        omega

theorem generateLoop_length (P : Nat) : ∀ (fuel : Nat) (src : List Nat) (len : Nat)
    (b : UF2Block) (frames : List UF2Block), 1 ≤ P → b.payload_size = P →
    generateLoop P fuel src len b = some frames →
    frames.length = len / P + (if len % P = 0 then 0 else 1) := by
  intro fuel
  induction fuel with
  | zero =>
    intro src len b frames hP hp h
    unfold generateLoop at h
    split at h
    · cases h; simp_all
    · exact absurd h (by simp)
  | succ fuel ih =>
    intro src len b frames hP hp h
    by_cases hlen : len = 0
    · subst hlen
      rw [generateLoop_len_zero] at h
      cases h; simp
    by_cases hlt : len < P
    · rw [generateLoop_step_lt P fuel src len b hlen hlt] at h
      split at h
      · exact absurd h (by simp)
      · rw [generateLoop_len_zero, Option.map_some'] at h
        cases h
        simp [Nat.div_eq_of_lt hlt, Nat.mod_eq_of_lt hlt, hlen]
    · rw [generateLoop_step_ge P fuel src len b hlen hlt] at h
      split at h
      · exact absurd h (by simp)
      · rw [Option.map_eq_some'] at h
        obtain ⟨rest, hrec, hcons⟩ := h
        have hlr := ih _ _ _ _ hP (by simpa using hp) hrec
        subst hcons
        rw [hp] at hlr
        obtain ⟨m, rfl⟩ : ∃ m, len = m + P := ⟨len - P, by omega⟩
        rw [Nat.add_sub_cancel] at hlr
        rw [List.length_cons, hlr, Nat.add_div_right _ hP, Nat.add_mod_right]
        split <;> omega

theorem generateLoop_pres (P : Nat) : ∀ (fuel : Nat) (src : List Nat) (len : Nat)
    (b : UF2Block) (frames : List UF2Block),
    generateLoop P fuel src len b = some frames →
    ∀ f ∈ frames, f.flags = b.flags ∧ f.num_blocks = b.num_blocks ∧
      f.file_size = b.file_size := by
  intro fuel
  induction fuel with
  | zero =>
    intro src len b frames h
    unfold generateLoop at h
    split at h
    · cases h; simp
    · exact absurd h (by simp)
  | succ fuel ih =>
    intro src len b frames h
    by_cases hlen : len = 0
    · subst hlen
      rw [generateLoop_len_zero] at h
      cases h; simp
    by_cases hlt : len < P
    · rw [generateLoop_step_lt P fuel src len b hlen hlt] at h
      split at h
      · exact absurd h (by simp)
      · rw [generateLoop_len_zero, Option.map_some'] at h
        cases h
        intro f hf
        simp only [List.mem_singleton] at hf
        subst hf
        exact ⟨rfl, rfl, rfl⟩
    · rw [generateLoop_step_ge P fuel src len b hlen hlt] at h
      split at h
      · exact absurd h (by simp)
      · rw [Option.map_eq_some'] at h
        obtain ⟨rest, hrec, hcons⟩ := h
        subst hcons
        intro f hf
        rcases List.mem_cons.mp hf with hf | hf
        · subst hf; exact ⟨rfl, rfl, rfl⟩
        · exact ih _ _ _ _ hrec f hf

theorem generateLoop_block_no (P : Nat) : ∀ (fuel : Nat) (src : List Nat) (len : Nat)
    (b : UF2Block) (frames : List UF2Block),
    generateLoop P fuel src len b = some frames →
    ∀ i (hi : i < frames.length), (frames.get ⟨i, hi⟩).block_no = b.block_no + i := by
  intro fuel
  induction fuel with
  | zero =>
    intro src len b frames h
    unfold generateLoop at h
    split at h
    · cases h; intro i hi; simp at hi
    · exact absurd h (by simp)
  | succ fuel ih =>
    intro src len b frames h
    by_cases hlen : len = 0
    · subst hlen
      rw [generateLoop_len_zero] at h
      cases h; intro i hi; simp at hi
    by_cases hlt : len < P
    · rw [generateLoop_step_lt P fuel src len b hlen hlt] at h
      split at h
      · exact absurd h (by simp)
      · rw [generateLoop_len_zero, Option.map_some'] at h
        cases h
        intro i hi
        match i, hi with
        | 0, _ => simp [List.get]
        | i + 1, hi => simp at hi
    · rw [generateLoop_step_ge P fuel src len b hlen hlt] at h
      split at h
      · exact absurd h (by simp)
      · rw [Option.map_eq_some'] at h
        obtain ⟨rest, hrec, hcons⟩ := h
        subst hcons
        intro i hi
        match i with
        | 0 => simp [List.get]
        | i + 1 =>
          rw [List.get_cons_succ]
          rw [ih _ _ _ _ hrec i (by simpa using hi)]
          simp
          omega

theorem generateLoop_target (P : Nat) : ∀ (fuel : Nat) (src : List Nat) (len : Nat)
    (b : UF2Block) (frames : List UF2Block), b.payload_size = P →
    generateLoop P fuel src len b = some frames →
    ∀ i (hi : i < frames.length),
      (frames.get ⟨i, hi⟩).target_addr = b.target_addr + sumPayloads (frames.take i) := by
  intro fuel
  induction fuel with
  | zero =>
    intro src len b frames _ h
    unfold generateLoop at h
    split at h
    · cases h; intro i hi; simp at hi
    · exact absurd h (by simp)
  | succ fuel ih =>
    intro src len b frames hp h
    by_cases hlen : len = 0
    · subst hlen
      rw [generateLoop_len_zero] at h
      cases h; intro i hi; simp at hi
    by_cases hlt : len < P
    · rw [generateLoop_step_lt P fuel src len b hlen hlt] at h
      split at h
      · exact absurd h (by simp)
      · rw [generateLoop_len_zero, Option.map_some'] at h
        cases h
        intro i hi
        match i, hi with
        | 0, _ => simp [List.get, sumPayloads]
        | i + 1, hi => simp at hi
    · rw [generateLoop_step_ge P fuel src len b hlen hlt] at h
      split at h
      · exact absurd h (by simp)
      · rw [Option.map_eq_some'] at h
        obtain ⟨rest, hrec, hcons⟩ := h
        subst hcons
        intro i hi
        match i with
        | 0 => simp [List.get, sumPayloads]
        | i + 1 =>
          rw [List.get_cons_succ]
          rw [ih _ _ _ _ (by simpa using hp) hrec i (by simpa using hi)]
          simp only [List.take_succ_cons, sumPayloads, List.map_cons, List.sum_cons]
          omega

theorem generateLoop_last (P : Nat) : ∀ (fuel : Nat) (src : List Nat) (len : Nat)
    (b : UF2Block) (frames : List UF2Block), 1 ≤ P → b.payload_size = P →
    generateLoop P fuel src len b = some frames →
    ∀ f, frames.getLast? = some f →
    f.payload_size = if len % P = 0 then P else len % P := by
  intro fuel
  induction fuel with
  | zero =>
    intro src len b frames _ _ h
    unfold generateLoop at h
    split at h
    · cases h; intro f hf; simp at hf
    · exact absurd h (by simp)
  | succ fuel ih =>
    intro src len b frames hP hp h
    by_cases hlen : len = 0
    · subst hlen
      rw [generateLoop_len_zero] at h
      cases h; intro f hf; simp at hf
    by_cases hlt : len < P
    · rw [generateLoop_step_lt P fuel src len b hlen hlt] at h
      split at h
      · exact absurd h (by simp)
      · rw [generateLoop_len_zero, Option.map_some'] at h
        cases h
        intro f hf
        simp only [List.getLast?_singleton, Option.some.injEq] at hf
        subst hf
        simp [Nat.mod_eq_of_lt hlt, hlen]
    · rw [generateLoop_step_ge P fuel src len b hlen hlt] at h
      split at h
      · exact absurd h (by simp)
      · rw [Option.map_eq_some'] at h
        obtain ⟨rest, hrec, hcons⟩ := h
        subst hcons
        intro f hf
        rw [hp] at hrec
        obtain ⟨m, rfl⟩ : ∃ m, len = m + P := ⟨len - P, by omega⟩
        rw [Nat.add_sub_cancel] at hrec
        rw [Nat.add_mod_right]
        by_cases hm : m = 0
        · subst hm
          rw [generateLoop_len_zero] at hrec
          cases hrec
          simp only [List.getLast?_singleton, Option.some.injEq] at hf
          subst hf
          simp [hp]
        · have hne := generateLoop_ne_nil _ _ _ _ _ _ hrec hm
          rcases rest with - | ⟨r, rest⟩
          · exact absurd rfl hne
          · rw [List.getLast?_cons_cons] at hf
            exact ih _ _ _ _ hP (by simp) hrec f hf

theorem generateLoop_datalen (P : Nat) : ∀ (fuel : Nat) (src : List Nat) (len : Nat)
    (b : UF2Block) (frames : List UF2Block), P ≤ MAX_PAYLOAD_SIZE →
    b.payload_size ≤ MAX_PAYLOAD_SIZE → b.data.length = MAX_PAYLOAD_SIZE →
    generateLoop P fuel src len b = some frames →
    ∀ f ∈ frames, f.data.length = MAX_PAYLOAD_SIZE := by
  intro fuel
  induction fuel with
  | zero =>
    intro src len b frames _ _ _ h
    unfold generateLoop at h
    split at h
    · cases h; simp
    · exact absurd h (by simp)
  | succ fuel ih =>
    intro src len b frames hP hbp hdata h
    by_cases hlen : len = 0
    · subst hlen
      rw [generateLoop_len_zero] at h
      cases h; simp
    by_cases hlt : len < P
    · rw [generateLoop_step_lt P fuel src len b hlen hlt] at h
      split at h
      · exact absurd h (by simp)
      · next hsrc =>
        rw [generateLoop_len_zero, Option.map_some'] at h
        cases h
        intro f hf
        simp only [List.mem_singleton] at hf
        subst hf
        simp only [List.length_append, List.length_take, List.length_drop, hdata]
        simp only [MAX_PAYLOAD_SIZE] at hP ⊢
        omega
    · rw [generateLoop_step_ge P fuel src len b hlen hlt] at h
      split at h
      · exact absurd h (by simp)
      · next hsrc =>
        rw [Option.map_eq_some'] at h
        obtain ⟨rest, hrec, hcons⟩ := h
        subst hcons
        intro f hf
        rcases List.mem_cons.mp hf with hf | hf
        · subst hf
          simp only [List.length_append, List.length_take, List.length_drop, hdata]
          simp only [MAX_PAYLOAD_SIZE] at hbp ⊢
          omega
        · refine ih _ _ _ _ hP (by simpa using hbp) ?_ hrec f hf
          simp only [List.length_append, List.length_take, List.length_drop, hdata]
          simp only [MAX_PAYLOAD_SIZE] at hbp ⊢
          omega

theorem generateLoop_data_zero (P : Nat) : ∀ (fuel : Nat) (src : List Nat) (len : Nat)
    (b : UF2Block) (frames : List UF2Block), b.payload_size ≤ P →
    (∀ j, P ≤ j → b.data.getD j 0 = 0) →
    generateLoop P fuel src len b = some frames →
    ∀ f ∈ frames, ∀ j, P ≤ j → f.data.getD j 0 = 0 := by
  intro fuel
  induction fuel with
  | zero =>
    intro src len b frames _ _ h
    unfold generateLoop at h
    split at h
    · cases h; simp
    · exact absurd h (by simp)
  | succ fuel ih =>
    intro src len b frames hbp hzero h
    by_cases hlen : len = 0
    · subst hlen
      rw [generateLoop_len_zero] at h
      cases h; simp
    by_cases hlt : len < P
    · rw [generateLoop_step_lt P fuel src len b hlen hlt] at h
      split at h
      · exact absurd h (by simp)
      · next hsrc =>
        rw [generateLoop_len_zero, Option.map_some'] at h
        cases h
        intro f hf
        simp only [List.mem_singleton] at hf
        subst hf
        intro j hj
        rw [getD_append_drop _ _ len j (by simp; omega) (by omega)]
        exact hzero j hj
    · rw [generateLoop_step_ge P fuel src len b hlen hlt] at h
      split at h
      · exact absurd h (by simp)
      · next hsrc =>
        rw [Option.map_eq_some'] at h
        obtain ⟨rest, hrec, hcons⟩ := h
        subst hcons
        intro f hf
        rcases List.mem_cons.mp hf with hf | hf
        · subst hf
          intro j hj
          rw [getD_append_drop _ _ b.payload_size j (by simp; omega) (by omega)]
          exact hzero j hj
        · refine ih _ _ _ _ (by simpa using hbp) ?_ hrec f hf
          intro j hj
          simp only
          rw [getD_append_drop _ _ b.payload_size j (by simp; omega) (by omega)]
          exact hzero j hj

theorem generateLoop_head (P fuel : Nat) (src : List Nat) (len : Nat) (b : UF2Block)
    (frames : List UF2Block) (hzero : ∀ j, b.data.getD j 0 = 0)
    (h : generateLoop P fuel src len b = some frames) :
    ∀ f, frames.head? = some f → ∀ j, f.payload_size ≤ j → f.data.getD j 0 = 0 := by
  cases fuel with
  | zero =>
    unfold generateLoop at h
    split at h
    · cases h; simp
    · exact absurd h (by simp)
  | succ fuel =>
    by_cases hlen : len = 0
    · subst hlen
      rw [generateLoop_len_zero] at h
      cases h; simp
    by_cases hlt : len < P
    · rw [generateLoop_step_lt P fuel src len b hlen hlt] at h
      split at h
      · exact absurd h (by simp)
      · next hsrc =>
        rw [Option.map_eq_some'] at h
        obtain ⟨rest, -, hcons⟩ := h
        subst hcons
        intro f hf
        simp only [List.head?_cons, Option.some.injEq] at hf
        subst hf
        intro j hj
        simp only at hj
        rw [getD_append_drop _ _ len j (by simp; omega) (by omega)]
        exact hzero j
    · rw [generateLoop_step_ge P fuel src len b hlen hlt] at h
      split at h
      · exact absurd h (by simp)
      · next hsrc =>
        rw [Option.map_eq_some'] at h
        obtain ⟨rest, -, hcons⟩ := h
        subst hcons
        intro f hf
        simp only [List.head?_cons, Option.some.injEq] at hf
        subst hf
        intro j hj
        simp only at hj
        rw [getD_append_drop _ _ b.payload_size j (by simp; omega) (by omega)]
        exact hzero j

/-! ### Facts about the initial block and the validated parameters -/

theorem initialBlock_payload (P len : Nat) (fam : Option Nat) :
    (initialBlock P len fam).payload_size = P := by
  cases fam <;> rfl

theorem initialBlock_block_no (P len : Nat) (fam : Option Nat) :
    (initialBlock P len fam).block_no = 0 := by
  cases fam <;> rfl

theorem initialBlock_target (P len : Nat) (fam : Option Nat) :
    (initialBlock P len fam).target_addr = 0 := by
  cases fam <;> rfl

theorem initialBlock_data (P len : Nat) (fam : Option Nat) :
    (initialBlock P len fam).data = List.replicate MAX_PAYLOAD_SIZE 0 := by
  cases fam <;> rfl

theorem initialBlock_num_blocks (P len : Nat) (fam : Option Nat) :
    (initialBlock P len fam).num_blocks = (len + 1) % 2 ^ 32 / P := by
  cases fam <;> rfl

theorem initialBlock_flags_none (P len : Nat) :
    (initialBlock P len none).flags = 0 := rfl

theorem initialBlock_flags_some (P len f : Nat) :
    (initialBlock P len (some f)).flags = FAMILY_FLAG := by
  show 0 ||| FAMILY_FLAG = FAMILY_FLAG
  decide

theorem initialBlock_file_none (P len : Nat) :
    (initialBlock P len none).file_size = len := rfl

theorem initialBlock_file_some (P len f : Nat) :
    (initialBlock P len (some f)).file_size = f := rfl

theorem acceptedPage_le (p : Nat) : acceptedPage p ≤ MAX_PAYLOAD_SIZE := by
  simp only [acceptedPage, MAX_PAYLOAD_SIZE]
  split <;> omega

theorem nominalPayload_pos (p : Nat) (h1 : 1 ≤ p) (h2 : p ≤ MAX_PAYLOAD_SIZE) :
    1 ≤ nominalPayload p := by
  have : 1 ≤ MAX_PAYLOAD_SIZE / p := (Nat.one_le_div_iff h1).mpr h2
  calc 1 = 1 * 1 := rfl
    _ ≤ p * (MAX_PAYLOAD_SIZE / p) := Nat.mul_le_mul h1 this
    _ = nominalPayload p := rfl

theorem nominalPayload_le (p : Nat) : nominalPayload p ≤ MAX_PAYLOAD_SIZE := by
  rw [nominalPayload, Nat.mul_comm]
  exact Nat.div_mul_le_self _ _

/-- Everything that holds on the success path of `generate`. -/
theorem generate_ok {src : List Nat} {page : Nat} {fam : Option Nat}
    {frames : List UF2Block} (h : generate src page fam = GenResult.ok frames) :
    src.length < 2 ^ 32 ∧ acceptedPage page ≠ 0 ∧ src.length % acceptedPage page = 0 ∧
    generateLoop (nominalPayload (acceptedPage page)) src.length src src.length
      (initialBlock (nominalPayload (acceptedPage page)) src.length fam) = some frames := by
  unfold generate at h
  split at h
  · exact absurd h (by simp)
  next h1 =>
  split at h
  · exact absurd h (by simp)
  next h2 =>
  split at h
  · exact absurd h (by simp)
  next h3 =>
  split at h
  next frames' heq =>
    cases h
    exact ⟨by omega, h2, by simpa using h3, heq⟩
  next => exact absurd h (by simp)

/-! ### Claim C1: frame layout of `as_chunk` -/

/-- C1: `as_chunk` is a total pure function of a `UF2Block` that always
produces exactly 512 bytes, little-endian in the frame-table order:
bytes 0-3 are `0x0A324655`, bytes 4-7 are `0x9E5D5157`, bytes 8-31 hold
`flags`, `target_addr`, `payload_size`, `block_no`, `num_blocks` and
`file_size_or_family` (4 bytes each), bytes 32-507 hold the data buffer
and bytes 508-511 are `0x0AB16F30`; and every frame emitted by `generate`
is such a block (its data buffer has the full 476-byte length). -/
theorem C1_as_chunk_layout :
    (∀ b : UF2Block, b.data.length = MAX_PAYLOAD_SIZE →
      b.as_chunk.length = 512 ∧
      b.as_chunk.take 4 = [0x55, 0x46, 0x32, 0x0A] ∧
      (b.as_chunk.drop 4).take 4 = [0x57, 0x51, 0x5D, 0x9E] ∧
      (b.as_chunk.drop 8).take 4 = u32le b.flags ∧
      (b.as_chunk.drop 12).take 4 = u32le b.target_addr ∧
      (b.as_chunk.drop 16).take 4 = u32le b.payload_size ∧
      (b.as_chunk.drop 20).take 4 = u32le b.block_no ∧
      (b.as_chunk.drop 24).take 4 = u32le b.num_blocks ∧
      (b.as_chunk.drop 28).take 4 = u32le b.file_size ∧
      (b.as_chunk.drop 32).take 476 = b.data ∧
      b.as_chunk.drop 508 = [0x30, 0x6F, 0xB1, 0x0A]) ∧
    (∀ src page fam frames, generate src page fam = GenResult.ok frames →
      ∀ f ∈ frames, f.data.length = MAX_PAYLOAD_SIZE) := by
  constructor
  · intro b hdata
    have hdata' : b.data.length = 476 := hdata
    refine ⟨?_, ?_, ?_, ?_, ?_, ?_, ?_, ?_, ?_, ?_, ?_⟩ <;>
      simp [UF2Block.as_chunk, u32le, MAGIC_START_0, MAGIC_START_1, MAGIC_END, hdata',
        List.take_left' hdata', List.drop_left' hdata']
  · intro src page fam frames h f hf
    obtain ⟨-, hpz, -, hloop⟩ := generate_ok h
    refine generateLoop_datalen _ _ _ _ _ _ (nominalPayload_le _) ?_ ?_ hloop f hf
    · rw [initialBlock_payload]
      exact nominalPayload_le _
    · rw [initialBlock_data]
      simp

theorem getD_replicate_zero (n j : Nat) : (List.replicate n 0).getD j 0 = 0 := by
  rw [List.getD_eq_getElem?_getD, List.getElem?_replicate]
  split <;> rfl

/-- C1 witness: the layout facts evaluated on a concrete block. -/
theorem C1_as_chunk_layout_witness :
    (UF2Block.new 476 3).as_chunk.length = 512 ∧
    (UF2Block.new 476 3).as_chunk.take 4 = [0x55, 0x46, 0x32, 0x0A] ∧
    (UF2Block.new 476 3).as_chunk.drop 508 = [0x30, 0x6F, 0xB1, 0x0A] :=
  ⟨(C1_as_chunk_layout.1 _ (by simp [UF2Block.new])).1,
   (C1_as_chunk_layout.1 _ (by simp [UF2Block.new])).2.1,
   (C1_as_chunk_layout.1 _ (by simp [UF2Block.new])).2.2.2.2.2.2.2.2.2.2⟩

/-! ### Claim C5: page sizes above 476 behave exactly like page size 1 -/

/-- C5: for every source and family option, a `page_size` above 476 gives
exactly the same result (same outcome, same frames) as `page_size = 1`. -/
theorem C5_page_fallback (src : List Nat) (fam : Option Nat) (p : Nat)
    (hp : MAX_PAYLOAD_SIZE < p) : generate src p fam = generate src 1 fam := by
  have hap : acceptedPage p = acceptedPage 1 := by
    simp only [acceptedPage, MAX_PAYLOAD_SIZE] at *
    rw [if_pos hp, if_neg (by omega)]
  unfold generate
  rw [hap]

/-- C5 witness: `page_size = 1000` agrees with `page_size = 1` on a
concrete source. -/
theorem C5_page_fallback_witness : generate [5] 1000 none = generate [5] 1 none :=
  C5_page_fallback [5] none 1000 (by decide)

/-! ### Claim C6: the IncompatibleLength error -/

/-- C6 counterexample: with `page_size = 0` (accepted unchanged by the
fallback) and a 10-byte source, the length is not a multiple of the
accepted page size, yet `generate` does not fail with
`IncompatibleLength` — the Rust `%` panics with a zero divisor first. -/
theorem C6_counterexample :
    ¬ (acceptedPage 0 ∣ (List.replicate 10 1).length) ∧
    generate (List.replicate 10 1) 0 none ≠ GenResult.incompatibleLength ∧
    generate (List.replicate 10 1) 0 none = GenResult.divPanic := by decide

/-- C6 (amended): whenever the accepted (post-fallback) page size is
nonzero and the source length fits a `u32`, `generate` fails with
`IncompatibleLength` exactly when the accepted page size does not divide
the source length; the error is produced before the loop runs, so no
frame is emitted.  (With accepted page size 0 the `%` panics instead.) -/
theorem C6_incompatible_length (src : List Nat) (page : Nat) (fam : Option Nat)
    (hpz : acceptedPage page ≠ 0) (hlen : src.length < 2 ^ 32) :
    generate src page fam = GenResult.incompatibleLength ↔
      ¬ (acceptedPage page ∣ src.length) := by
  unfold generate
  rw [if_neg (by omega), if_neg hpz, Nat.dvd_iff_mod_eq_zero]
  by_cases hc : src.length % acceptedPage page = 0
  · rw [if_neg (by simp [hc])]
    constructor
    · intro h
      split at h <;> exact absurd h (by simp)
    · intro h
      exact absurd hc h
  · rw [if_pos (by simpa using hc)]
    simp [hc]

/-- C6 witness: the claim's own example, a 10-byte source with
`page_size = 3`. -/
theorem C6_incompatible_length_witness :
    generate (List.replicate 10 1) 3 none = GenResult.incompatibleLength :=
  (C6_incompatible_length (List.replicate 10 1) 3 none (by decide) (by simp)).mpr (by decide)

/-! ### Claim C10: totality of the validation -/

/-- C10 counterexample: `page_size = 0` survives the fallback (it is not
greater than 476), so the divisor in `len % page_size` is zero and the
program panics instead of validating. -/
theorem C10_counterexample :
    acceptedPage 0 = 0 ∧ generate [] 0 none = GenResult.divPanic := by decide

/-- C10 (amended): for every nonzero `page_size` the validation is total:
the accepted page size lies in `1..=476`, so `len % page_size` and
`476 / page_size` have nonzero divisors and `generate` never hits the
division-by-zero panic; `page_size = 0` instead panics. -/
theorem C10_validation_total (page : Nat) (hp : page ≠ 0) :
    1 ≤ acceptedPage page ∧ acceptedPage page ≤ MAX_PAYLOAD_SIZE ∧
    ∀ (src : List Nat) (fam : Option Nat), generate src page fam ≠ GenResult.divPanic := by
  have h1 : acceptedPage page ≠ 0 := by
    unfold acceptedPage
    split <;> omega
  refine ⟨by omega, acceptedPage_le page, ?_⟩
  intro src fam
  unfold generate
  split
  · simp
  · split
    · simp
    · split <;> simp

/-- C10 witness: a concrete nonzero page size never panics. -/
theorem C10_validation_total_witness :
    1 ≤ acceptedPage 5 ∧ acceptedPage 5 ≤ MAX_PAYLOAD_SIZE ∧
    generate [] 5 none ≠ GenResult.divPanic :=
  ⟨(C10_validation_total 5 (by decide)).1, (C10_validation_total 5 (by decide)).2.1,
   (C10_validation_total 5 (by decide)).2.2 [] none⟩

/-! ### Claim C2: the num_blocks field -/

def c2Source : List Nat := List.replicate 477 1

def c2Frames : List UF2Block :=
  match generate c2Source 1 none with
  | GenResult.ok frames => frames
  | _ => []

set_option maxRecDepth 40000 in
/-- C2: at `L = 477`, `page_size = 1` (nominal payload 476) the stream has
`ceil(477/476) = 2` frames, but every emitted frame's `num_blocks` field
is `(477+1)/476 = 1`, not the claimed ceiling value 2 — the source
formula `(len + 1) / payload_size` is not ceiling division. -/
theorem C2_num_blocks_not_ceil :
    generate c2Source 1 none = GenResult.ok c2Frames ∧
    c2Frames.length = 2 ∧
    (∀ f ∈ c2Frames, f.num_blocks = 1) ∧
    (c2Source.length + nominalPayload (acceptedPage 1) - 1) /
      nominalPayload (acceptedPage 1) = 2 := by
  refine ⟨rfl, ?_, ?_, ?_⟩ <;> decide

/-! ### Claim C3: frame count and final payload -/

/-- C3: for every successful encode, the number of emitted frames is
`ceil(L / nominalPayload)`; the last frame's `payload_size` is
`L mod nominalPayload` when that is nonzero and the nominal value
otherwise; and a zero-length source emits zero frames. -/
theorem C3_frame_count (src : List Nat) (page : Nat) (fam : Option Nat)
    (frames : List UF2Block) (h : generate src page fam = GenResult.ok frames) :
    frames.length = (src.length + nominalPayload (acceptedPage page) - 1) /
        nominalPayload (acceptedPage page) ∧
    (∀ f, frames.getLast? = some f → f.payload_size =
      if src.length % nominalPayload (acceptedPage page) = 0
      then nominalPayload (acceptedPage page)
      else src.length % nominalPayload (acceptedPage page)) ∧
    (src.length = 0 → frames = []) := by
  obtain ⟨hlen, hpz, hmod, hloop⟩ := generate_ok h
  have hp1 : 1 ≤ acceptedPage page := Nat.pos_of_ne_zero hpz
  have hP : 1 ≤ nominalPayload (acceptedPage page) :=
    nominalPayload_pos _ hp1 (acceptedPage_le _)
  refine ⟨?_, ?_, ?_⟩
  · rw [div_ceil_eq _ _ hP]
    exact generateLoop_length _ _ _ _ _ _ hP (initialBlock_payload _ _ _) hloop
  · exact generateLoop_last _ _ _ _ _ _ hP (initialBlock_payload _ _ _) hloop
  · intro h0
    rw [h0, generateLoop_len_zero] at hloop
    cases hloop
    rfl

def c3Frames : List UF2Block :=
  match generate (List.replicate 4 7) 2 none with
  | GenResult.ok frames => frames
  | _ => []

/-- C3 witness: a 4-byte source at page size 2 yields one frame. -/
theorem C3_frame_count_witness : c3Frames.length = 1 := by
  have h := (C3_frame_count (List.replicate 4 7) 2 none c3Frames rfl).1
  simpa [nominalPayload, acceptedPage, MAX_PAYLOAD_SIZE] using h

/-! ### Claim C4: stream invariants of a successful encode -/

/-- C4: for every successful encode, the payload sizes of the emitted
frames sum to the source length, the `block_no` values are exactly
`0, 1, ..., n-1` in order (no repeats or gaps), and the `target_addr`
of frame `i` is the sum of the payload sizes of frames `0..i-1`. -/
theorem C4_stream_invariants (src : List Nat) (page : Nat) (fam : Option Nat)
    (frames : List UF2Block) (h : generate src page fam = GenResult.ok frames) :
    sumPayloads frames = src.length ∧
    frames.map UF2Block.block_no = List.range frames.length ∧
    ∀ i (hi : i < frames.length),
      (frames.get ⟨i, hi⟩).target_addr = sumPayloads (frames.take i) := by
  obtain ⟨hlen, hpz, hmod, hloop⟩ := generate_ok h
  refine ⟨?_, ?_, ?_⟩
  · exact generateLoop_sum _ _ _ _ _ _ (initialBlock_payload _ _ _) hloop
  · refine List.ext_get (by simp) ?_
    intro n h₁ h₂
    have hb := generateLoop_block_no _ _ _ _ _ _ hloop n (by simpa using h₁)
    rw [initialBlock_block_no] at hb
    simp only [List.get_eq_getElem, List.getElem_map, List.getElem_range]
    simpa [List.get_eq_getElem] using hb
  · intro i hi
    have ht := generateLoop_target _ _ _ _ _ _ (initialBlock_payload _ _ _) hloop i hi
    rw [initialBlock_target] at ht
    simpa using ht

def c4Frames : List UF2Block :=
  match generate [9, 8, 7] 3 none with
  | GenResult.ok frames => frames
  | _ => []

/-- C4 witness: a 3-byte source at page size 3; the payload sizes of the
emitted frames sum to 3. -/
theorem C4_stream_invariants_witness : sumPayloads c4Frames = 3 := by
  have h := (C4_stream_invariants [9, 8, 7] 3 none c4Frames rfl).1
  simpa using h

/-! ### Claim C7: the family tag -/

/-- C7: when a family id is supplied every emitted frame has flag bit
`0x2000` set and its `file_size` slot holds the family id; with no family
the bit is clear and the slot holds the source length. -/
theorem C7_family_tag (src : List Nat) (page : Nat) :
    (∀ f frames, generate src page (some f) = GenResult.ok frames →
      ∀ b ∈ frames, b.flags &&& FAMILY_FLAG = FAMILY_FLAG ∧ b.file_size = f) ∧
    (∀ frames, generate src page none = GenResult.ok frames →
      ∀ b ∈ frames, b.flags &&& FAMILY_FLAG = 0 ∧ b.file_size = src.length) := by
  constructor
  · intro f frames h b hb
    obtain ⟨-, -, -, hloop⟩ := generate_ok h
    obtain ⟨hfl, -, hfs⟩ := generateLoop_pres _ _ _ _ _ _ hloop b hb
    rw [hfl, hfs, initialBlock_flags_some, initialBlock_file_some]
    exact ⟨by decide, rfl⟩
  · intro frames h b hb
    obtain ⟨-, -, -, hloop⟩ := generate_ok h
    obtain ⟨hfl, -, hfs⟩ := generateLoop_pres _ _ _ _ _ _ hloop b hb
    rw [hfl, hfs, initialBlock_flags_none, initialBlock_file_none]
    exact ⟨by decide, rfl⟩

def c7Frames : List UF2Block :=
  match generate [1, 2, 3] 1 (some 7) with
  | GenResult.ok frames => frames
  | _ => []

set_option maxRecDepth 40000 in
/-- C7 witness: with `family = 7`, the first emitted frame has the family
bit set and carries 7 in the `file_size` slot. -/
theorem C7_family_tag_witness :
    (c7Frames.getD 0 (UF2Block.new 0 0)).flags &&& FAMILY_FLAG = FAMILY_FLAG ∧
    (c7Frames.getD 0 (UF2Block.new 0 0)).file_size = 7 :=
  (C7_family_tag [1, 2, 3] 1).1 7 c7Frames rfl _ (by decide)

/-! ### Claim C9: padding of the data region -/

def c9Source : List Nat := List.replicate 477 2

def c9Frames : List UF2Block :=
  match generate c9Source 1 none with
  | GenResult.ok frames => frames
  | _ => []

set_option maxRecDepth 40000 in
/-- C9 counterexample: encoding 477 bytes of value 2 at page size 1 emits
a full 476-byte frame followed by a short frame with `payload_size = 1`;
the short frame's data bytes at offsets `≥ 1` keep the previous
iteration's contents (the value 2), so they are not zero. -/
theorem C9_counterexample :
    generate c9Source 1 none = GenResult.ok c9Frames ∧
    ¬ (∀ f ∈ c9Frames, ∀ j, j < MAX_PAYLOAD_SIZE → f.payload_size ≤ j →
        f.data.getD j 0 = 0) := by
  constructor
  · rfl
  · decide

/-- C9 (amended): in every emitted frame the data bytes at offsets at or
beyond the nominal payload size are zero, and in the first emitted frame
the bytes at or beyond its `payload_size` are zero; a final short frame
that follows one or more full frames instead keeps the previous frame's
bytes in the gap between its `payload_size` and the nominal value — the
buffer is not re-zeroed between iterations. -/
theorem C9_padding (src : List Nat) (page : Nat) (fam : Option Nat)
    (frames : List UF2Block) (h : generate src page fam = GenResult.ok frames) :
    (∀ f ∈ frames, ∀ j, nominalPayload (acceptedPage page) ≤ j →
      f.data.getD j 0 = 0) ∧
    (∀ f, frames.head? = some f → ∀ j, f.payload_size ≤ j →
      f.data.getD j 0 = 0) := by
  obtain ⟨-, -, -, hloop⟩ := generate_ok h
  constructor
  · refine generateLoop_data_zero _ _ _ _ _ _
      (le_of_eq (initialBlock_payload _ _ _)) ?_ hloop
    intro j _
    rw [initialBlock_data]
    exact getD_replicate_zero _ _
  · refine generateLoop_head _ _ _ _ _ _ ?_ hloop
    intro j
    rw [initialBlock_data]
    exact getD_replicate_zero _ _

def c9wFrames : List UF2Block :=
  match generate [3, 4] 1 none with
  | GenResult.ok frames => frames
  | _ => []

set_option maxRecDepth 40000 in
/-- C9 witness: a single-frame stream (2 bytes at page size 1) has zero
padding beyond its payload. -/
theorem C9_padding_witness :
    (c9wFrames.getD 0 (UF2Block.new 0 0)).data.getD 475 0 = 0 :=
  (C9_padding [3, 4] 1 none c9wFrames rfl).2
    (c9wFrames.getD 0 (UF2Block.new 0 0)) (by decide) 475 (by decide)

/-! ### Claim C8: the chunk combiner -/

/-- C8: given inputs that each provide at least 512 bytes, `combine`
returns exactly the first 512 bytes of each input concatenated in input
order (so `n` inputs yield `512 * n` bytes), and it fails with
`ShortRead` exactly when some input provides fewer than 512 bytes. -/
theorem C8_combine (inputs : List (List Nat)) :
    ((∀ f ∈ inputs, CHUNK_SIZE ≤ f.length) →
      combine inputs = Except.ok ((inputs.map (fun f => f.take CHUNK_SIZE)).flatten) ∧
      ((inputs.map (fun f => f.take CHUNK_SIZE)).flatten).length =
        CHUNK_SIZE * inputs.length) ∧
    (combine inputs = Except.error CombineError.shortRead ↔
      ∃ f ∈ inputs, f.length < CHUNK_SIZE) := by
  induction inputs with
  | nil =>
    constructor
    · intro _
      exact ⟨rfl, by simp⟩
    · simp [combine]
  | cons f rest ih =>
    constructor
    · intro hall
      have hf : ¬ f.length < CHUNK_SIZE := by
        have := hall f (by simp)
        omega
      have hrest := ih.1 (fun g hg => hall g (by simp [hg]))
      constructor
      · simp only [combine, if_neg hf, hrest.1, List.map_cons, List.flatten_cons]
        rfl
      · simp only [List.map_cons, List.flatten_cons, List.length_append, List.length_take,
          List.length_cons]
        rw [hrest.2]
        have hm : min CHUNK_SIZE f.length = CHUNK_SIZE := by omega
        rw [hm, Nat.mul_succ]
        omega
    · by_cases hf : f.length < CHUNK_SIZE
      · simp only [combine, if_pos hf]
        constructor
        · intro _
          exact ⟨f, List.mem_cons_self f rest, hf⟩
        · intro _
          trivial
      · simp only [combine, if_neg hf]
        rcases hcr : combine rest with e | v
        · cases e
          constructor
          · intro _
            obtain ⟨g, hg, hlt⟩ := ih.2.mp hcr
            exact ⟨g, List.mem_cons_of_mem f hg, hlt⟩
          · intro _
            rfl
        · constructor
          · intro hcontr
            exact absurd hcontr (by simp [Except.map])
          · rintro ⟨g, hg, hlt⟩
            rcases List.mem_cons.mp hg with rfl | hg2
            · exact absurd hlt hf
            · have h2 := ih.2.mpr ⟨g, hg2, hlt⟩
              rw [h2] at hcr
              exact absurd hcr (by simp)

set_option maxRecDepth 40000 in
/-- C8 witness: three 512-byte inputs combine to their exact 1536-byte
concatenation. -/
theorem C8_combine_witness :
    combine [List.replicate 512 1, List.replicate 512 2, List.replicate 512 3] =
      Except.ok (([List.replicate 512 1, List.replicate 512 2,
        List.replicate 512 3].map (fun f => f.take CHUNK_SIZE)).flatten) ∧
    (([List.replicate 512 1, List.replicate 512 2,
        List.replicate 512 3].map (fun f => f.take CHUNK_SIZE)).flatten).length =
      CHUNK_SIZE * ([List.replicate 512 1, List.replicate 512 2,
        List.replicate 512 3] : List (List Nat)).length :=
  (C8_combine _).1 (by decide)
